import Mathlib

/-!
Shallow embedding of the point-cloud core of the Digital repository
(src/modules/point_tools.py): the Point class, the Origin class, the
PointCloud class and the module-level distance function, together with
theorems settling the specification claims about them.

Modelling conventions:
* Python floats are modelled as exact real numbers (claims qualified
  "within floating-point tolerance" become exact equalities).
* Raising an exception is modelled with Except; each error carries the
  Python exception kind and message raised at that source location.
* A Python method that assigns no field leaves its receiver unchanged;
  the embeddings of the arithmetic methods therefore return the
  post-state of each operand alongside the result, so that theorems can
  state the absence of mutation.
-/

namespace PointTools

/-- Python exception kinds raised inside point_tools, with their messages. -/
inductive PyErr where
  | indexError (msg : String)
  | typeError (msg : String)
  | valueError (msg : String)
  deriving DecidableEq

/-- Point class of modules/point_tools.py: an n-dimensional point holding an
array of float coordinates.  The x/y/z convenience attributes set by
`__init__` are derived data (copies of entries 0..2) and are not used by any
claim, so they are not stored separately. -/
structure Point where
  coordinates : List ℝ

instance : Inhabited Point := ⟨⟨[]⟩⟩

/-- dimension attribute: `__init__` sets `self.dimension = len(coordinates)`. -/
def Point.dimension (p : Point) : ℕ := p.coordinates.length

/-- Point.__getitem__: raises IndexError when `key > self.dimension - 1`;
otherwise returns `self.coordinates[key]` with numpy indexing semantics,
which resolve a negative key `k` with `-dimension <= k` to position
`dimension + k` and raise IndexError for smaller keys. -/
noncomputable def Point.getitem (p : Point) (key : ℤ) : Except PyErr ℝ :=
  if (p.dimension : ℤ) - 1 < key then
    .error (.indexError "Index out of range")
  else if 0 ≤ key then
    .ok (p.coordinates.getD key.toNat 0)
  else if -(p.dimension : ℤ) ≤ key then
    .ok (p.coordinates.getD ((p.dimension : ℤ) + key).toNat 0)
  else
    .error (.indexError "index out of bounds for axis 0")

/-- Point.__add__: dimension-wise addition; raises ValueError on a dimension
mismatch, otherwise builds a fresh Point from `self.coordinates +
other.coordinates` (numpy elementwise addition).  The body assigns no field,
so the returned post-states of self and other equal the inputs. -/
noncomputable def Point.add (self other : Point) : Except PyErr (Point × Point × Point) :=
  if self.dimension ≠ other.dimension then
    .error (.valueError "Points must have the same dimension")
  else
    .ok (⟨self.coordinates.zipWith (fun a b => a + b) other.coordinates⟩, self, other)

/-- Point.__sub__: dimension-wise subtraction, same structure as `__add__`. -/
noncomputable def Point.sub (self other : Point) : Except PyErr (Point × Point × Point) :=
  if self.dimension ≠ other.dimension then
    .error (.valueError "Points must have the same dimension")
  else
    .ok (⟨self.coordinates.zipWith (fun a b => a - b) other.coordinates⟩, self, other)

/-- Point.__mul__: scalar multiplication of every coordinate.  The runtime
isinstance check (TypeError for non-scalar operands) is enforced by the type
of the scalar argument here.  No field is assigned, so self is returned
unchanged as its post-state. -/
noncomputable def Point.mul (self : Point) (other : ℝ) : Except PyErr (Point × Point) :=
  .ok (⟨self.coordinates.map (fun c => c * other)⟩, self)

/-- Point.__truediv__: scalar division of every coordinate.  The runtime
isinstance check is enforced by the type of the scalar argument.  The source
performs plain numpy float division, which raises nothing for a zero divisor
(it emits infinities/NaNs); accordingly this embedding is total.  The field
value at divisor zero is not relied upon by any theorem. -/
noncomputable def Point.truediv (self : Point) (other : ℝ) : Except PyErr (Point × Point) :=
  .ok (⟨self.coordinates.map (fun c => c / other)⟩, self)

/-- Origin class: a Point at the origin, `np.zeros(dimension)`. -/
noncomputable def Origin (dimension : ℕ) : Point := ⟨List.replicate dimension 0⟩

/-- Evaluation of a Python list comprehension, left to right, propagating the
first raised exception. -/
def mapME {α β : Type} (f : α → Except PyErr β) : List α → Except PyErr (List β)
  | [] => .ok []
  | a :: t => do
    let b ← f a
    let r ← mapME f t
    pure (b :: r)

/-- Python max() on a list of floats: raises ValueError on an empty sequence,
otherwise folds the binary maximum over the list. -/
noncomputable def pymax : List ℝ → Except PyErr ℝ
  | [] => .error (.valueError "max() arg is an empty sequence")
  | h :: t => .ok (t.foldl max h)

/-- Sum of squared coordinate differences over the index range of the first
point, the quantity whose square root the distance function returns.  Out of
range indices contribute the getD default, matching getitem's in-range reads
only when the second point is long enough. -/
noncomputable def sumSq (point1 point2 : Point) : ℝ :=
  ((List.range point1.dimension).map
    (fun i => (point1.coordinates.getD i 0 - point2.coordinates.getD i 0) ^ 2)).sum

/-- distance function of modules/point_tools.py:
`sqrt(sum([(point1[i] - point2[i])**2 for i in range(point1.dimension)]))`.
Each indexing step goes through `__getitem__` and may raise. -/
noncomputable def distance (point1 point2 : Point) : Except PyErr ℝ := do
  let sqs ← mapME
    (fun (i : ℕ) => do
      let a ← point1.getitem (i : ℤ)
      let b ← point2.getitem (i : ℤ)
      pure ((a - b) ^ 2))
    (List.range point1.dimension)
  pure (Real.sqrt sqs.sum)

/-- Calling distance with the second argument omitted.  Python evaluates the
default expression `Origin()` once, at function definition time, yielding a
fixed 3-dimensional origin that every defaulted call shares. -/
noncomputable def distance_default (point1 : Point) : Except PyErr ℝ :=
  distance point1 (Origin 3)

/-- PointCloud class attributes: the array of Points, plus the dimension and
point_count attributes stored by `__init__`. -/
structure PointCloud where
  points : List Point
  dimension : ℕ
  point_count : ℕ

/-- Row-major reshape of a flat coordinate list into point_count rows of
dimension entries each: the semantics of
`np.array(points).reshape(point_count, dimension)` when the sizes match. -/
noncomputable def reshape (point_count dimension : ℕ) (raw : List ℝ) : List (List ℝ) :=
  match point_count with
  | 0 => []
  | n + 1 => raw.take dimension :: reshape n dimension (raw.drop dimension)

/-- PointCloud.normalise: reads `origin = self.points[0]` (IndexError on an
empty array), computes `max([distance(point, origin) for point in
self.points[1:]])`, then reassigns `self.points` to
`[(point - origin) / max_distance for point in self.points]`.  Returns the
post-state of the cloud. -/
noncomputable def PointCloud.normalise (pc : PointCloud) : Except PyErr PointCloud :=
  match pc.points with
  | [] => .error (.indexError "index out of bounds for axis 0")
  | origin :: _ => do
    let dists ← mapME (fun point => distance point origin) (pc.points.drop 1)
    let max_distance ← pymax dists
    let newPoints ← mapME
      (fun point => do
        let s ← point.sub origin
        let q ← s.1.truediv max_distance
        pure q.1)
      pc.points
    pure ⟨newPoints, pc.dimension, pc.point_count⟩

/-- PointCloud.__init__: reshapes the flat input into point_count rows of
dimension coordinates (numpy raises ValueError when the total size differs
from point_count * dimension), wraps each row as a Point, stores the
dimension and point_count attributes, and runs normalise when requested. -/
noncomputable def PointCloud.init
    (points : List ℝ) (dimension point_count : ℕ) (normalise : Bool) :
    Except PyErr PointCloud :=
  if points.length ≠ point_count * dimension then
    .error (.valueError "cannot reshape array")
  else
    let pc : PointCloud :=
      ⟨(reshape point_count dimension points).map Point.mk, dimension, point_count⟩
    if normalise then pc.normalise else .ok pc

/-- Replacement value of one cloud point inside normalise: the expression
`(point - origin) / max_distance` with origin p0 and max_distance M, written
out through the sub and truediv embeddings. -/
noncomputable def normPoint (p0 : Point) (M : ℝ) (p : Point) : Point :=
  ⟨(p.coordinates.zipWith (fun a b => a - b) p0.coordinates).map (fun c => c / M)⟩

/-- Flattened coordinate sequence of a cloud, in row-major point order: the
value sequence that csv_repr serializes token by token. -/
noncomputable def PointCloud.flatCoords (pc : PointCloud) : List ℝ :=
  (pc.points.map Point.coordinates).flatten

/-- Python delimiter.join over a list of token strings (strings as character
lists). -/
def joinWith (delimiter : Char) : List (List Char) → List Char
  | [] => []
  | [t] => t
  | t :: ts => t ++ delimiter :: joinWith delimiter ts

/-- Python line.split(delimiter) for a one-character delimiter: always yields
one more part than there are delimiter occurrences. -/
def splitOnChar (delimiter : Char) : List Char → List (List Char)
  | [] => [[]]
  | c :: cs =>
    if c = delimiter then [] :: splitOnChar delimiter cs
    else
      match splitOnChar delimiter cs with
      | [] => [[c]]
      | t :: ts => (c :: t) :: ts

/-- Digit value of a decimal digit character. -/
def charToDigit (c : Char) : ℕ := c.toNat - 48

/-- Decimal rendering of a natural number. -/
def natToChars (n : ℕ) : List Char :=
  if n = 0 then ['0'] else ((Nat.digits 10 n).map Nat.digitChar).reverse

/-- Inverse of natToChars: reads a decimal digit string. -/
def charsToNat (cs : List Char) : ℕ :=
  Nat.ofDigits 10 ((cs.map charToDigit).reverse)

/-- Exact textual rendering of one float coordinate, modelling Python
`str(coord)`.  A double-precision float is an exact rational number and
Python renders it as a decimal string that `float()` parses back to the
identical value; this model keeps that exact-rational value and renders it
injectively as sign, numerator and denominator. -/
def ratRepr (q : ℚ) : List Char :=
  (if q.num < 0 then ['-'] else []) ++
    natToChars q.num.natAbs ++ '/' :: natToChars q.den

/-- Model of Python float(token) on tokens in the image of ratRepr: an
optional leading minus sign followed by the numerator digits, a slash and
the denominator digits. -/
def parseRat (cs : List Char) : Option ℚ :=
  match cs with
  | [] => none
  | c :: t =>
    if c = '-' then
      match splitOnChar '/' t with
      | [a, b] => some (-((charsToNat a : ℚ) / (charsToNat b : ℚ)))
      | _ => none
    else
      match splitOnChar '/' (c :: t) with
      | [a, b] => some ((charsToNat a : ℚ) / (charsToNat b : ℚ))
      | _ => none

/-- Characters that may occur in a serialized coordinate token; a delimiter
outside this set never collides with token text. -/
def isCodecChar (c : Char) : Bool :=
  c = '-' || c = '/' || ('0' ≤ c && c ≤ '9')

/-- PointCloud.csv_repr: joins the textual renderings of the flattened
coordinates with the delimiter.  The coordinates are given here by their
exact rational float values. -/
def csv_repr (coords : List ℚ) (delimiter : Char) : List Char :=
  joinWith delimiter (coords.map ratRepr)

/-- PointCloud.from_csv_line: splits the line on the delimiter, parses every
token as a float (ValueError on a malformed token), and delegates the parsed
flat coordinate list to the constructor. -/
noncomputable def from_csv_line
    (line : List Char) (delimiter : Char) (dimension point_count : ℕ)
    (normalise : Bool) : Except PyErr PointCloud := do
  let coords ← mapME
    (fun tok =>
      match parseRat tok with
      | some q => .ok ((q : ℝ))
      | none => .error (.valueError "could not convert string to float"))
    (splitOnChar delimiter line)
  PointCloud.init coords dimension point_count normalise

/-! ### Evaluation lemmas for the embedded operations -/

theorem mapME_ok {α β : Type} (f : α → Except PyErr β) (g : α → β) :
    ∀ l : List α, (∀ x ∈ l, f x = .ok (g x)) → mapME f l = .ok (l.map g)
  | [], _ => rfl
  | a :: t, h => by
    have ha := h a (List.mem_cons_self a t)
    have ht := mapME_ok f g t fun x hx => h x (List.mem_cons_of_mem a hx)
    simp only [mapME, ha, ht, List.map_cons]
    rfl

theorem mapME_err {α β : Type} (f : α → Except PyErr β) (e : PyErr) :
    ∀ (l1 : List α) (x : α) (l2 : List α),
      (∀ y ∈ l1, ∃ b, f y = .ok b) → f x = .error e →
      mapME f (l1 ++ x :: l2) = .error e
  | [], x, l2, _, hx => by
    simp only [List.nil_append, mapME, hx]
    rfl
  | a :: t, x, l2, h, hx => by
    obtain ⟨b, hb⟩ := h a (List.mem_cons_self a t)
    have ht := mapME_err f e t x l2 (fun y hy => h y (List.mem_cons_of_mem a hy)) hx
    simp only [List.cons_append, mapME, hb, List.append_eq, ht]
    rfl

theorem getitem_nat (p : Point) (i : ℕ) (hi : i < p.dimension) :
    p.getitem (i : ℤ) = .ok (p.coordinates.getD i 0) := by
  have h1 : ¬((p.dimension : ℤ) - 1 < (i : ℤ)) := by omega
  have h2 : (0 : ℤ) ≤ (i : ℤ) := by omega
  simp [Point.getitem, h1, h2]

theorem getitem_overflow (p : Point) (i : ℕ) (hi : p.dimension ≤ i) :
    p.getitem (i : ℤ) = .error (.indexError "Index out of range") := by
  have h1 : (p.dimension : ℤ) - 1 < (i : ℤ) := by omega
  simp [Point.getitem, h1]

theorem distance_eval_ok (p1 p2 : Point) (h : p1.dimension ≤ p2.dimension) :
    distance p1 p2 = .ok (Real.sqrt (sumSq p1 p2)) := by
  have hm := mapME_ok
    (fun i : ℕ => do
      let a ← p1.getitem (i : ℤ)
      let b ← p2.getitem (i : ℤ)
      pure ((a - b) ^ 2))
    (fun i : ℕ => (p1.coordinates.getD i 0 - p2.coordinates.getD i 0) ^ 2)
    (List.range p1.dimension) ?_
  · unfold distance
    rw [hm]
    rfl
  · intro i hi
    rw [List.mem_range] at hi
    dsimp only
    rw [getitem_nat p1 i hi, getitem_nat p2 i (lt_of_lt_of_le hi h)]
    rfl

theorem distance_eval_err (p1 p2 : Point) (h : p2.dimension < p1.dimension) :
    distance p1 p2 = .error (.indexError "Index out of range") := by
  obtain ⟨k, hk⟩ : ∃ k, p1.dimension = p2.dimension + (k + 1) :=
    ⟨p1.dimension - p2.dimension - 1, by omega⟩
  have herr := mapME_err
    (fun i : ℕ => do
      let a ← p1.getitem (i : ℤ)
      let b ← p2.getitem (i : ℤ)
      pure ((a - b) ^ 2))
    (.indexError "Index out of range")
    (List.range p2.dimension) (p2.dimension + 0)
    (((List.range k).map Nat.succ).map (p2.dimension + ·)) ?_ ?_
  · unfold distance
    rw [hk, List.range_add, List.range_succ_eq_map, List.map_cons, herr]
    rfl
  · intro y hy
    rw [List.mem_range] at hy
    exact ⟨_, by dsimp only; rw [getitem_nat p1 y (by omega), getitem_nat p2 y hy]; rfl⟩
  · dsimp only
    rw [Nat.add_zero, getitem_nat p1 p2.dimension (by omega),
      getitem_overflow p2 p2.dimension le_rfl]
    rfl

theorem sub_ok (p q : Point) (h : p.dimension = q.dimension) :
    p.sub q = .ok (⟨p.coordinates.zipWith (fun a b => a - b) q.coordinates⟩, p, q) := by
  simp [Point.sub, h]

theorem truediv_ok (p : Point) (s : ℝ) :
    p.truediv s = .ok (⟨p.coordinates.map (fun c => c / s)⟩, p) := rfl

/-! ### List-level helper lemmas -/

theorem getD_map_lt (f : ℝ → ℝ) (l : List ℝ) (i : ℕ) (hi : i < l.length) :
    (l.map f).getD i 0 = f (l.getD i 0) := by
  rw [List.getD_eq_getElem _ 0 (by simpa using hi), List.getD_eq_getElem l 0 hi,
    List.getElem_map]

theorem getD_zipWith_lt (f : ℝ → ℝ → ℝ) (l1 l2 : List ℝ) (i : ℕ)
    (h1 : i < l1.length) (h2 : i < l2.length) :
    (List.zipWith f l1 l2).getD i 0 = f (l1.getD i 0) (l2.getD i 0) := by
  have hz : i < (List.zipWith f l1 l2).length := by
    rw [List.length_zipWith]; omega
  rw [List.getD_eq_getElem _ 0 hz, List.getD_eq_getElem _ 0 h1,
    List.getD_eq_getElem _ 0 h2, List.getElem_zipWith]

theorem getD_replicate_zero (n i : ℕ) : (List.replicate n (0:ℝ)).getD i 0 = 0 := by
  rcases lt_or_ge i n with h | h
  · rw [List.getD_eq_getElem _ 0 (by simpa using h), List.getElem_replicate]
  · exact List.getD_eq_default _ 0 (by simpa using h)

theorem zipWith_sub_self (l : List ℝ) :
    List.zipWith (fun a b => a - b) l l = List.replicate l.length 0 := by
  induction l with
  | nil => rfl
  | cons a t ih => simp [ih, List.replicate_succ]

theorem zipWith_sub_replicate_zero (l : List ℝ) :
    List.zipWith (fun a b => a - b) l (List.replicate l.length 0) = l := by
  induction l with
  | nil => rfl
  | cons a t ih => simp [ih, List.replicate_succ]

theorem map_div_one_id (l : List ℝ) : l.map (fun c => c / 1) = l := by
  simp

theorem sum_map_div (l : List ℝ) (c : ℝ) :
    (l.map (fun x => x / c)).sum = l.sum / c := by
  induction l with
  | nil => simp
  | cons a t ih => simp [ih, add_div]

theorem exists_getD_ne (l1 l2 : List ℝ) (hlen : l1.length = l2.length)
    (hne : l1 ≠ l2) : ∃ i, i < l1.length ∧ l1.getD i 0 ≠ l2.getD i 0 := by
  by_contra hc
  push_neg at hc
  refine hne (List.ext_getElem hlen fun i h1 h2 => ?_)
  have := hc i h1
  rwa [List.getD_eq_getElem _ 0 h1, List.getD_eq_getElem _ 0 h2] at this

/-! ### Fold-max and pymax lemmas -/

theorem le_foldl_max (t : List ℝ) (a : ℝ) : a ≤ t.foldl max a := by
  induction t generalizing a with
  | nil => exact le_rfl
  | cons x t ih => exact le_trans (le_max_left a x) (ih (max a x))

theorem mem_le_foldl_max (t : List ℝ) (a x : ℝ) (hx : x ∈ t) :
    x ≤ t.foldl max a := by
  induction t generalizing a with
  | nil => cases hx
  | cons y t ih =>
    rcases List.mem_cons.mp hx with rfl | h
    · exact le_trans (le_max_right a x) (le_foldl_max t (max a x))
    · exact ih (max a y) h

theorem foldl_max_mem (t : List ℝ) (a : ℝ) :
    t.foldl max a = a ∨ t.foldl max a ∈ t := by
  induction t generalizing a with
  | nil => exact Or.inl rfl
  | cons x t ih =>
    rcases ih (max a x) with h | h
    · rcases max_choice a x with h2 | h2
      · exact Or.inl (by rw [List.foldl_cons, h, h2])
      · exact Or.inr (by rw [List.foldl_cons, h, h2]; exact List.mem_cons_self x t)
    · exact Or.inr (List.mem_cons_of_mem x h)

theorem foldl_max_map_div (M : ℝ) (hM : 0 < M) (t : List ℝ) :
    ∀ a, (t.map (fun x => x / M)).foldl max (a / M) = (t.foldl max a) / M := by
  induction t with
  | nil => intro a; rfl
  | cons x t ih =>
    intro a
    rw [List.map_cons, List.foldl_cons, List.foldl_cons,
      max_div_div_right hM.le, ih]

theorem pymax_le (l : List ℝ) (M : ℝ) (hM : pymax l = .ok M) :
    ∀ x ∈ l, x ≤ M := by
  cases l with
  | nil => simp [pymax] at hM
  | cons h t =>
    have hMt : M = t.foldl max h := by
      simpa [pymax] using hM.symm
    intro x hx
    rcases List.mem_cons.mp hx with rfl | hxl
    · rw [hMt]; exact le_foldl_max t x
    · rw [hMt]; exact mem_le_foldl_max t h x hxl

theorem pymax_mem (l : List ℝ) (M : ℝ) (hM : pymax l = .ok M) : M ∈ l := by
  cases l with
  | nil => simp [pymax] at hM
  | cons h t =>
    have hMt : M = t.foldl max h := by
      simpa [pymax] using hM.symm
    rcases foldl_max_mem t h with he | he
    · rw [hMt, he]; exact List.mem_cons_self h t
    · rw [hMt]; exact List.mem_cons_of_mem h he

theorem pymax_map_div (l : List ℝ) (M c : ℝ) (hc : 0 < c)
    (hM : pymax l = .ok M) : pymax (l.map (fun x => x / c)) = .ok (M / c) := by
  cases l with
  | nil => simp [pymax] at hM
  | cons h t =>
    have hMt : M = t.foldl max h := by
      simpa [pymax] using hM.symm
    rw [List.map_cons]
    show Except.ok ((t.map (fun x => x / c)).foldl max (h / c)) = _
    rw [foldl_max_map_div c hc t h, hMt]

/-! ### Lemmas about the squared-distance sum -/

theorem sumSq_nonneg (p q : Point) : 0 ≤ sumSq p q :=
  List.sum_nonneg (by
    intro x hx
    obtain ⟨i, _, rfl⟩ := List.mem_map.mp hx
    exact sq_nonneg _)

theorem sumSq_self (p : Point) : sumSq p p = 0 := by
  refine List.sum_eq_zero ?_
  intro x hx
  obtain ⟨i, _, rfl⟩ := List.mem_map.mp hx
  simp

theorem sumSq_pos (p q : Point) (hlen : p.dimension = q.dimension)
    (hne : p ≠ q) : 0 < sumSq p q := by
  have hcoords : p.coordinates ≠ q.coordinates := by
    intro hc
    exact hne (by cases p; cases q; simpa using hc)
  obtain ⟨i, hi, hne2⟩ := exists_getD_ne _ _ hlen hcoords
  have hmem : (p.coordinates.getD i 0 - q.coordinates.getD i 0) ^ 2 ∈
      (List.range p.dimension).map
        (fun j => (p.coordinates.getD j 0 - q.coordinates.getD j 0) ^ 2) :=
    List.mem_map_of_mem _ (List.mem_range.mpr hi)
  have hpos : 0 < (p.coordinates.getD i 0 - q.coordinates.getD i 0) ^ 2 :=
    pow_two_pos_of_ne_zero (sub_ne_zero.mpr hne2)
  calc (0:ℝ) < (p.coordinates.getD i 0 - q.coordinates.getD i 0) ^ 2 := hpos
    _ ≤ sumSq p q :=
      List.single_le_sum
        (by
          intro x hx
          obtain ⟨j, _, rfl⟩ := List.mem_map.mp hx
          exact sq_nonneg _) _ hmem

/-! ### Except bind reduction -/

theorem ok_bind {α β : Type} (a : α) (f : α → Except PyErr β) :
    (Except.ok a : Except PyErr α) >>= f = f a := rfl

theorem normalise_cons (pc : PointCloud) (p0 : Point) (rest : List Point)
    (hpts : pc.points = p0 :: rest) :
    pc.normalise = (do
      let dists ← mapME (fun point => distance point p0) rest
      let max_distance ← pymax dists
      let newPoints ← mapME
        (fun point => do
          let s ← point.sub p0
          let q ← s.1.truediv max_distance
          pure q.1)
        (p0 :: rest)
      pure ⟨newPoints, pc.dimension, pc.point_count⟩) := by
  unfold PointCloud.normalise
  rw [hpts]
  rfl

/-! ### Characterisation of a successful normalise run -/

theorem normalise_spec (pc : PointCloud) (p0 : Point) (rest : List Point)
    (hpts : pc.points = p0 :: rest)
    (hwf : ∀ p ∈ pc.points, p.dimension = pc.dimension)
    (hrest : rest ≠ [])
    (hne : ∃ p ∈ rest, p ≠ p0) :
    ∃ M, 0 < M ∧
      pymax (rest.map (fun p => Real.sqrt (sumSq p p0))) = .ok M ∧
      pc.normalise = .ok
        ⟨pc.points.map (normPoint p0 M), pc.dimension, pc.point_count⟩ := by
  have hp0 : p0.dimension = pc.dimension :=
    hwf p0 (by rw [hpts]; exact List.mem_cons_self _ _)
  have hdists : mapME (fun point => distance point p0) rest
      = .ok (rest.map (fun p => Real.sqrt (sumSq p p0))) := by
    apply mapME_ok
    intro p hp
    refine distance_eval_ok p p0 ?_
    rw [hwf p (by rw [hpts]; exact List.mem_cons_of_mem _ hp), hp0]
  obtain ⟨r1, rt, hr⟩ := List.exists_cons_of_ne_nil hrest
  have hpm : pymax (rest.map (fun p => Real.sqrt (sumSq p p0)))
      = .ok ((rt.map (fun p => Real.sqrt (sumSq p p0))).foldl max
          (Real.sqrt (sumSq r1 p0))) := by
    rw [hr, List.map_cons]; rfl
  refine ⟨_, ?_, hpm, ?_⟩
  · obtain ⟨pw, hpw, hpwne⟩ := hne
    have hd : Real.sqrt (sumSq pw p0) ∈ rest.map (fun p => Real.sqrt (sumSq p p0)) :=
      List.mem_map_of_mem _ hpw
    have hdpos : 0 < Real.sqrt (sumSq pw p0) := by
      rw [Real.sqrt_pos]
      refine sumSq_pos pw p0 ?_ hpwne
      rw [hwf pw (by rw [hpts]; exact List.mem_cons_of_mem _ hpw), hp0]
    exact lt_of_lt_of_le hdpos (pymax_le _ _ hpm _ hd)
  · have hnew : mapME
        (fun point => do
          let s ← point.sub p0
          let q ← s.1.truediv
            ((rt.map (fun p => Real.sqrt (sumSq p p0))).foldl max
              (Real.sqrt (sumSq r1 p0)))
          pure q.1)
        (p0 :: rest)
        = .ok ((p0 :: rest).map (fun p =>
            ⟨(p.coordinates.zipWith (fun a b => a - b) p0.coordinates).map
              (fun c => c /
                ((rt.map (fun p => Real.sqrt (sumSq p p0))).foldl max
                  (Real.sqrt (sumSq r1 p0))))⟩)) := by
      apply mapME_ok
      intro p hp
      rw [sub_ok p p0 (by rw [hwf p (hpts ▸ hp), hp0])]
      rfl
    rw [hpts, normalise_cons pc p0 rest hpts, hdists, ok_bind]
    rw [hpm, ok_bind]
    rw [hnew, ok_bind]
    rfl

/-! ### Properties of the replacement points -/

theorem normPoint_dimension (p0 : Point) (M : ℝ) (p : Point)
    (hd : p.dimension = p0.dimension) :
    (normPoint p0 M p).dimension = p.dimension := by
  unfold Point.dimension at hd ⊢
  simp [normPoint, List.length_zipWith]
  omega

theorem normPoint_self (p0 : Point) (M : ℝ) :
    normPoint p0 M p0 = ⟨List.replicate p0.dimension 0⟩ := by
  unfold normPoint
  rw [zipWith_sub_self, List.map_replicate, zero_div]
  rfl

theorem sumSq_normPoint (p p0 : Point) (M : ℝ)
    (hd : p.dimension = p0.dimension) :
    sumSq (normPoint p0 M p) ⟨List.replicate p0.dimension 0⟩
      = sumSq p p0 / M ^ 2 := by
  unfold sumSq
  rw [normPoint_dimension p0 M p hd]
  have hcong : ∀ i ∈ List.range p.dimension,
      ((normPoint p0 M p).coordinates.getD i 0
        - (Point.mk (List.replicate p0.dimension 0)).coordinates.getD i 0) ^ 2
      = ((p.coordinates.getD i 0 - p0.coordinates.getD i 0) ^ 2) / M ^ 2 := by
    intro i hi
    rw [List.mem_range] at hi
    have hip : i < p.coordinates.length := hi
    have hip0 : i < p0.coordinates.length := by
      unfold Point.dimension at hd
      omega
    have hlen : i < (p.coordinates.zipWith (fun a b => a - b) p0.coordinates).length := by
      rw [List.length_zipWith]
      omega
    show ((((p.coordinates.zipWith (fun a b => a - b) p0.coordinates).map
        (fun c => c / M)).getD i 0
      - (List.replicate p0.dimension (0:ℝ)).getD i 0)) ^ 2 = _
    rw [getD_map_lt _ _ _ hlen, getD_replicate_zero,
      getD_zipWith_lt _ _ _ _ hip hip0, sub_zero, div_pow]
  rw [List.map_congr_left hcong, ← sum_map_div, List.map_map]
  rfl

theorem distance_normPoint (p p0 : Point) (M : ℝ) (hM : 0 < M)
    (hd : p.dimension = p0.dimension) :
    distance (normPoint p0 M p) ⟨List.replicate p0.dimension 0⟩
      = .ok (Real.sqrt (sumSq p p0) / M) := by
  have hle : (normPoint p0 M p).dimension
      ≤ (Point.mk (List.replicate p0.dimension 0)).dimension := by
    rw [normPoint_dimension p0 M p hd, hd]
    show p0.dimension ≤ (List.replicate p0.dimension (0:ℝ)).length
    rw [List.length_replicate]
  rw [distance_eval_ok _ _ hle, sumSq_normPoint p p0 M hd,
    Real.sqrt_div (sumSq_nonneg p p0), Real.sqrt_sq hM.le]

theorem sqrt_sumSq_normPoint (p p0 : Point) (M : ℝ) (hM : 0 < M)
    (hd : p.dimension = p0.dimension) :
    Real.sqrt (sumSq (normPoint p0 M p) ⟨List.replicate p0.dimension 0⟩)
      = Real.sqrt (sumSq p p0) / M := by
  rw [sumSq_normPoint p p0 M hd, Real.sqrt_div (sumSq_nonneg p p0),
    Real.sqrt_sq hM.le]

theorem normPoint_id (q : Point) (d : ℕ) (hq : q.dimension = d) :
    normPoint ⟨List.replicate d 0⟩ 1 q = q := by
  unfold normPoint
  have hrep : List.replicate d (0:ℝ) = List.replicate q.coordinates.length 0 := by
    rw [← hq]; rfl
  show Point.mk ((q.coordinates.zipWith (fun a b => a - b)
    (List.replicate d 0)).map (fun c => c / 1)) = q
  rw [hrep, zipWith_sub_replicate_zero, map_div_one_id]

theorem mapME_map {α β γ : Type} (g : α → β) (f : β → Except PyErr γ) :
    ∀ l : List α, mapME f (l.map g) = mapME (fun a => f (g a)) l
  | [] => rfl
  | a :: t => by
    simp only [List.map_cons, mapME, mapME_map g f t]

theorem map_eq_self {α : Type} {l : List α} {f : α → α}
    (h : ∀ q ∈ l, f q = q) : l.map f = l := by
  induction l with
  | nil => rfl
  | cons a t ih =>
    rw [List.map_cons, h a (List.mem_cons_self a t),
      ih (fun q hq => h q (List.mem_cons_of_mem a hq))]

/-! ### Full account of a successful normalise run: first point at the
origin, maximum post-normalisation distance one, and idempotence -/

theorem normalise_full (pc : PointCloud) (p0 : Point) (rest : List Point)
    (hpts : pc.points = p0 :: rest)
    (hwf : ∀ p ∈ pc.points, p.dimension = pc.dimension)
    (hrest : rest ≠ [])
    (hne : ∃ p ∈ rest, p ≠ p0) :
    ∃ pc', pc.normalise = .ok pc' ∧
      pc'.dimension = pc.dimension ∧
      pc'.point_count = pc.point_count ∧
      pc'.points.length = pc.points.length ∧
      (∀ q ∈ pc'.points, q.dimension = pc.dimension) ∧
      pc'.points.headI = ⟨List.replicate pc.dimension 0⟩ ∧
      (∃ ds, mapME (fun q => distance q pc'.points.headI) (pc'.points.drop 1)
          = .ok ds ∧ pymax ds = .ok 1) ∧
      pc'.normalise = .ok pc' := by
  obtain ⟨M, hM, hpm, hrun⟩ := normalise_spec pc p0 rest hpts hwf hrest hne
  have hp0 : p0.dimension = pc.dimension :=
    hwf p0 (by rw [hpts]; exact List.mem_cons_self _ _)
  have hwfrest : ∀ p ∈ rest, p.dimension = p0.dimension := by
    intro p hp
    rw [hwf p (by rw [hpts]; exact List.mem_cons_of_mem _ hp), hp0]
  have hptsmap : pc.points.map (normPoint p0 M)
      = normPoint p0 M p0 :: rest.map (normPoint p0 M) := by
    rw [hpts, List.map_cons]
  have hwf' : ∀ q ∈ pc.points.map (normPoint p0 M), q.dimension = pc.dimension := by
    intro q hq
    obtain ⟨p, hp, rfl⟩ := List.mem_map.mp hq
    rw [normPoint_dimension p0 M p (by rw [hwf p hp, hp0])]
    exact hwf p hp
  have hhead : (pc.points.map (normPoint p0 M)).headI
      = ⟨List.replicate pc.dimension 0⟩ := by
    rw [hptsmap, List.headI_cons, normPoint_self, hp0]
  have hdists2 : mapME
      (fun q => distance q ((pc.points.map (normPoint p0 M)).headI))
      ((pc.points.map (normPoint p0 M)).drop 1)
      = .ok ((rest.map (fun p => Real.sqrt (sumSq p p0))).map (fun x => x / M)) := by
    rw [hhead, hptsmap]
    rw [show (normPoint p0 M p0 :: rest.map (normPoint p0 M)).drop 1
        = rest.map (normPoint p0 M) from rfl]
    rw [mapME_map]
    have := mapME_ok
      (fun p => distance (normPoint p0 M p) (⟨List.replicate pc.dimension 0⟩ : Point))
      (fun p => Real.sqrt (sumSq p p0) / M) rest ?_
    · rw [this, List.map_map]
      rfl
    · intro p hp
      rw [← hp0]
      exact distance_normPoint p p0 M hM (hwfrest p hp)
  have hpm2 : pymax ((rest.map (fun p => Real.sqrt (sumSq p p0))).map
      (fun x => x / M)) = .ok 1 := by
    rw [pymax_map_div _ _ _ hM hpm, div_self hM.ne']
  -- the maximising point stays distinct from the new origin point
  obtain ⟨v, hvmem, hveq⟩ := List.mem_map.mp (pymax_mem _ _ hpm)
  have hvS : sumSq v p0 = M ^ 2 := by
    calc sumSq v p0 = (Real.sqrt (sumSq v p0)) ^ 2 :=
          (Real.sq_sqrt (sumSq_nonneg v p0)).symm
      _ = M ^ 2 := by rw [hveq]
  have hne' : normPoint p0 M v ≠ normPoint p0 M p0 := by
    intro hgg
    have h1 : sumSq (normPoint p0 M v) ⟨List.replicate p0.dimension 0⟩ = 1 := by
      rw [sumSq_normPoint v p0 M (hwfrest v hvmem), hvS,
        div_self (pow_ne_zero 2 hM.ne')]
    rw [hgg, normPoint_self, sumSq_self] at h1
    exact zero_ne_one h1
  -- second normalise run on the normalised cloud
  have hidem : PointCloud.normalise
      ⟨pc.points.map (normPoint p0 M), pc.dimension, pc.point_count⟩
      = .ok ⟨pc.points.map (normPoint p0 M), pc.dimension, pc.point_count⟩ := by
    obtain ⟨M2, hM2, hpm2', hrun2⟩ := normalise_spec
      ⟨pc.points.map (normPoint p0 M), pc.dimension, pc.point_count⟩
      (normPoint p0 M p0) (rest.map (normPoint p0 M)) hptsmap hwf'
      (by
        intro hnil
        rw [List.map_eq_nil_iff] at hnil
        exact hrest hnil)
      ⟨normPoint p0 M v, List.mem_map_of_mem _ hvmem, hne'⟩
    -- identify the second maximum as 1
    have hlist : (rest.map (normPoint p0 M)).map
        (fun q => Real.sqrt (sumSq q (normPoint p0 M p0)))
        = (rest.map (fun p => Real.sqrt (sumSq p p0))).map (fun x => x / M) := by
      rw [List.map_map, List.map_map]
      refine List.map_congr_left ?_
      intro p hp
      show Real.sqrt (sumSq (normPoint p0 M p) (normPoint p0 M p0)) = _
      rw [normPoint_self]
      exact sqrt_sumSq_normPoint p p0 M hM (hwfrest p hp)
    rw [hlist, hpm2] at hpm2'
    have hM2one : M2 = 1 := by
      have := hpm2'.symm
      rwa [Except.ok.injEq] at this
    rw [hM2one] at hrun2
    have hmapid : (pc.points.map (normPoint p0 M)).map
        (normPoint (normPoint p0 M p0) 1) = pc.points.map (normPoint p0 M) := by
      refine map_eq_self ?_
      intro q hq
      rw [normPoint_self, hp0]
      exact normPoint_id q pc.dimension (hwf' q hq)
    rw [hmapid] at hrun2
    exact hrun2
  exact ⟨⟨pc.points.map (normPoint p0 M), pc.dimension, pc.point_count⟩,
    hrun, rfl, rfl, by simp, hwf', hhead, ⟨_, hdists2, hpm2⟩, hidem⟩

/-! ### Reshape and constructor lemmas -/

theorem reshape_length (d : ℕ) :
    ∀ (n : ℕ) (raw : List ℝ), (reshape n d raw).length = n
  | 0, _ => rfl
  | n + 1, raw => by
    show (reshape n d (raw.drop d)).length + 1 = n + 1
    rw [reshape_length d n]

theorem reshape_mem_length (d : ℕ) :
    ∀ (n : ℕ) (raw : List ℝ), raw.length = n * d →
      ∀ c ∈ reshape n d raw, c.length = d
  | 0, _, _, c, hc => by cases hc
  | n + 1, raw, hlen, c, hc => by
    rw [Nat.succ_mul] at hlen
    rcases List.mem_cons.mp hc with rfl | hcr
    · rw [List.length_take]
      omega
    · exact reshape_mem_length d n (raw.drop d)
        (by rw [List.length_drop]; omega) c hcr

theorem reshape_getD (d : ℕ) :
    ∀ (n : ℕ) (raw : List ℝ) (i : ℕ), i < n →
      (reshape n d raw).getD i [] = (raw.drop (i * d)).take d
  | 0, _, i, hi => absurd hi (by omega)
  | n + 1, raw, 0, _ => by
    rw [Nat.zero_mul, List.drop_zero]
    rfl
  | n + 1, raw, i + 1, hi => by
    show (reshape n d (raw.drop d)).getD i [] = _
    rw [reshape_getD d n (raw.drop d) i (by omega), List.drop_drop,
      show d + i * d = (i + 1) * d by ring]

theorem reshape_flatten (d : ℕ) :
    ∀ (n : ℕ) (raw : List ℝ), raw.length = n * d →
      (reshape n d raw).flatten = raw
  | 0, raw, h => by
    have : raw = [] := List.length_eq_zero.mp (by omega)
    rw [this]
    rfl
  | n + 1, raw, h => by
    show (raw.take d :: reshape n d (raw.drop d)).flatten = raw
    rw [List.flatten_cons, reshape_flatten d n (raw.drop d)
      (by rw [List.length_drop, Nat.succ_mul] at *; omega), List.take_append_drop]

theorem init_ok (raw : List ℝ) (d n : ℕ) (h : raw.length = n * d) :
    PointCloud.init raw d n false
      = .ok ⟨(reshape n d raw).map Point.mk, d, n⟩ := by
  unfold PointCloud.init
  rw [if_neg (by omega)]
  rfl

theorem init_shape_err (raw : List ℝ) (d n : ℕ) (b : Bool)
    (h : raw.length ≠ n * d) :
    PointCloud.init raw d n b = .error (.valueError "cannot reshape array") := by
  unfold PointCloud.init
  rw [if_pos h]

theorem init_flatCoords (raw : List ℝ) (d n : ℕ) (h : raw.length = n * d) :
    PointCloud.flatCoords ⟨(reshape n d raw).map Point.mk, d, n⟩ = raw := by
  unfold PointCloud.flatCoords
  rw [List.map_map, show (Point.coordinates ∘ Point.mk) = id from rfl,
    List.map_id, reshape_flatten d n raw h]

/-! ### Claim C10: negative indexing -/

/-- C10: for every Point of dimension d >= 1 and integer key with
-d <= key < 0, `__getitem__` does not fail: it returns the coordinate at
position d + key, even though the documented failure condition only covers
keys >= d. -/
theorem claim_c10_getitem_negative (p : Point) (key : ℤ)
    (hd : 1 ≤ p.dimension) (h1 : -(p.dimension : ℤ) ≤ key) (h2 : key < 0) :
    p.getitem key = .ok (p.coordinates.getD ((p.dimension : ℤ) + key).toNat 0) ∧
    ((p.dimension : ℤ) + key).toNat < p.dimension := by
  unfold Point.getitem
  rw [if_neg (by omega), if_neg (by omega), if_pos h1]
  exact ⟨rfl, by omega⟩

/-- Witness for C10: indexing the point (5, 7) with key -2 yields 5, the
coordinate at position 0 = 2 + (-2). -/
theorem claim_c10_witness :
    (1 ≤ (Point.mk [(5:ℝ), 7]).dimension ∧
      -(((Point.mk [(5:ℝ), 7]).dimension : ℤ)) ≤ -2 ∧ (-2 : ℤ) < 0) ∧
    (Point.mk [(5:ℝ), 7]).getitem (-2) = .ok 5 := by
  have h := claim_c10_getitem_negative (Point.mk [(5:ℝ), 7]) (-2)
    (by decide) (by decide) (by decide)
  refine ⟨⟨by decide, by decide, by decide⟩, ?_⟩
  rw [h.1]
  rfl

/-! ### Claim C5: scalar division by zero -/

/-- C5 counterexample: dividing the 1-dimensional point (1) by the scalar 0
succeeds; no DivisionByZero-kind error is raised. -/
theorem claim_c5_counterexample :
    ∃ r, (Point.mk [(1:ℝ)]).truediv 0 = .ok r := ⟨_, rfl⟩

/-- C5 amended: scalar true division never raises, the zero divisor
included; it returns a fresh Point of the same dimension and leaves self
unchanged (the numpy float division silently yields non-finite values when
the divisor is zero). -/
theorem claim_c5_truediv_total (p : Point) (s : ℝ) :
    ∃ r, p.truediv s = .ok (r, p) ∧ r.dimension = p.dimension :=
  ⟨⟨p.coordinates.map (fun c => c / s)⟩, rfl, by
    unfold Point.dimension
    exact List.length_map _ _⟩

/-! ### Claim C9: arithmetic operations are pure -/

/-- C9: addition, subtraction, scalar multiplication and scalar division by
a nonzero scalar each return a fresh Point holding the elementwise result
with the operand's dimension, and return both operands unchanged (the method
bodies assign no field). -/
theorem claim_c9_ops_pure (a b : Point) (s : ℝ)
    (hdim : a.dimension = b.dimension) (hs : s ≠ 0) :
    a.add b = .ok (⟨a.coordinates.zipWith (fun x y => x + y) b.coordinates⟩, a, b) ∧
    a.sub b = .ok (⟨a.coordinates.zipWith (fun x y => x - y) b.coordinates⟩, a, b) ∧
    a.mul s = .ok (⟨a.coordinates.map (fun c => c * s)⟩, a) ∧
    a.truediv s = .ok (⟨a.coordinates.map (fun c => c / s)⟩, a) ∧
    (Point.mk (a.coordinates.zipWith (fun x y => x + y) b.coordinates)).dimension
      = a.dimension ∧
    (Point.mk (a.coordinates.zipWith (fun x y => x - y) b.coordinates)).dimension
      = a.dimension ∧
    (Point.mk (a.coordinates.map (fun c => c * s))).dimension = a.dimension ∧
    (Point.mk (a.coordinates.map (fun c => c / s))).dimension = a.dimension := by
  unfold Point.dimension at hdim
  refine ⟨by simp [Point.add, Point.dimension, hdim], by
    simp [Point.sub, Point.dimension, hdim], rfl, rfl, ?_, ?_, ?_, ?_⟩ <;>
    simp [Point.dimension, List.length_zipWith, hdim]

/-- Witness for C9 at the points (1, 2) and (3, 4) with scalar 2. -/
theorem claim_c9_witness :
    ((Point.mk [(1:ℝ), 2]).dimension = (Point.mk [(3:ℝ), 4]).dimension ∧
      (2:ℝ) ≠ 0) ∧
    (Point.mk [(1:ℝ), 2]).add ⟨[3, 4]⟩ = .ok (⟨[4, 6]⟩, ⟨[1, 2]⟩, ⟨[3, 4]⟩) ∧
    (Point.mk [(1:ℝ), 2]).sub ⟨[3, 4]⟩ = .ok (⟨[-2, -2]⟩, ⟨[1, 2]⟩, ⟨[3, 4]⟩) ∧
    (Point.mk [(1:ℝ), 2]).mul 2 = .ok (⟨[2, 4]⟩, ⟨[1, 2]⟩) ∧
    (Point.mk [(1:ℝ), 2]).truediv 2 = .ok (⟨[1 / 2, 1]⟩, ⟨[1, 2]⟩) := by
  have h := claim_c9_ops_pure ⟨[(1:ℝ), 2]⟩ ⟨[(3:ℝ), 4]⟩ 2 rfl (by norm_num)
  obtain ⟨h1, h2, h3, h4, _⟩ := h
  refine ⟨⟨rfl, by norm_num⟩, ?_, ?_, ?_, ?_⟩
  · rw [h1]; norm_num
  · rw [h2]; norm_num
  · rw [h3]; norm_num
  · rw [h4]; norm_num

/-! ### Claim C8: normalising a single-point cloud -/

/-- C8: a cloud holding exactly one point deterministically fails inside
normalise: max() over the empty sequence points[1:] raises its ValueError
(the NormalizationError-kind failure of the claim); no silent NaN output is
produced. -/
theorem claim_c8_single_point (pc : PointCloud)
    (hc : pc.point_count = 1) (hp : pc.points.length = 1) :
    pc.normalise = .error (.valueError "max() arg is an empty sequence") := by
  obtain ⟨p, hps⟩ : ∃ p, pc.points = [p] := List.length_eq_one.mp hp
  rw [normalise_cons pc p [] hps]
  rfl

/-- Witness for C8 at the concrete one-point cloud ((0, 0, 0)). -/
theorem claim_c8_witness :
    ((⟨[⟨[(0:ℝ), 0, 0]⟩], 3, 1⟩ : PointCloud).point_count = 1 ∧
      (⟨[⟨[(0:ℝ), 0, 0]⟩], 3, 1⟩ : PointCloud).points.length = 1) ∧
    (⟨[⟨[(0:ℝ), 0, 0]⟩], 3, 1⟩ : PointCloud).normalise
      = .error (.valueError "max() arg is an empty sequence") :=
  ⟨⟨rfl, rfl⟩, claim_c8_single_point _ rfl rfl⟩

/-! ### Claim C6: the shape invariant of the constructor -/

/-- C6 counterexample: for raw = [0], d = n = 1, the length equals d * n,
yet construction with the constructor's default normalise=true fails (the
subsequent normalisation raises), so construction does not succeed whenever
the shape matches. -/
theorem claim_c6_counterexample :
    ([(0:ℝ)] : List ℝ).length = 1 * 1 ∧
    PointCloud.init [(0:ℝ)] 1 1 true
      = .error (.valueError "max() arg is an empty sequence") :=
  ⟨rfl, rfl⟩

/-- C6 amended: construction fails with the reshape ValueError exactly when
the raw length differs from d * n (under either normalise flag, since the
reshape runs first), and with normalisation disabled it succeeds whenever
the length matches, producing n Points of d coordinates each in row-major
order. -/
theorem claim_c6_shape (raw : List ℝ) (d n : ℕ) (hd : 1 ≤ d) (hn : 1 ≤ n) :
    (∀ b, raw.length ≠ d * n →
      PointCloud.init raw d n b = .error (.valueError "cannot reshape array")) ∧
    (raw.length = d * n →
      ∃ pc, PointCloud.init raw d n false = .ok pc ∧
        pc.dimension = d ∧ pc.point_count = n ∧ pc.points.length = n ∧
        (∀ p ∈ pc.points, p.coordinates.length = d) ∧
        (∀ i, i < n → (pc.points.getD i default).coordinates
          = (raw.drop (i * d)).take d)) := by
  constructor
  · intro b hb
    exact init_shape_err raw d n b (by rwa [Nat.mul_comm n d])
  · intro hb
    have hlen : raw.length = n * d := by rw [hb, Nat.mul_comm]
    refine ⟨_, init_ok raw d n hlen, rfl, rfl, ?_, ?_, ?_⟩
    · rw [List.length_map, reshape_length]
    · intro p hp
      obtain ⟨c, hc, rfl⟩ := List.mem_map.mp hp
      exact reshape_mem_length d n raw hlen c hc
    · intro i hi
      have hi' : i < ((reshape n d raw).map Point.mk).length := by
        rw [List.length_map, reshape_length]
        omega
      have hi2 : i < (reshape n d raw).length := by
        rw [reshape_length]
        omega
      rw [List.getD_eq_getElem _ _ hi', List.getElem_map,
        ← reshape_getD d n raw i hi, List.getD_eq_getElem _ [] hi2]

/-- Witness for the amended C6 on raw = [1, 2, 3, 4, 5, 6] with d = 3,
n = 2. -/
theorem claim_c6_witness :
    (1 ≤ 3 ∧ 1 ≤ 2) ∧
    (∃ pc, PointCloud.init [(1:ℝ), 2, 3, 4, 5, 6] 3 2 false = .ok pc ∧
      pc.dimension = 3 ∧ pc.point_count = 2 ∧ pc.points.length = 2 ∧
      (∀ p ∈ pc.points, p.coordinates.length = 3) ∧
      (∀ i, i < 2 → (pc.points.getD i default).coordinates
        = (([(1:ℝ), 2, 3, 4, 5, 6] : List ℝ).drop (i * 3)).take 3)) :=
  ⟨⟨by norm_num, by norm_num⟩,
    (claim_c6_shape [(1:ℝ), 2, 3, 4, 5, 6] 3 2 (by norm_num) (by norm_num)).2 rfl⟩

/-! ### Claim C3: dimension handling in distance -/

/-- C3 amended: distance performs no dimension check.  It fails, with the
IndexError raised by getitem, exactly when a.dimension exceeds b.dimension;
for a.dimension <= b.dimension (equal dimensions included) it succeeds and
returns sqrt of the sum of squared differences over a's index range — for
a.dimension < b.dimension this silently truncates b. -/
theorem claim_c3_distance_cases (a b : Point) :
    (a.dimension ≤ b.dimension →
      distance a b = .ok (Real.sqrt (sumSq a b))) ∧
    (b.dimension < a.dimension →
      distance a b = .error (.indexError "Index out of range")) :=
  ⟨fun h => distance_eval_ok a b h, fun h => distance_eval_err a b h⟩

/-- C3 counterexample: the points (0, 0) and (0, 0, 0) have different
dimensions, yet distance succeeds and returns 0 instead of raising a
DimensionMismatch-kind error. -/
theorem claim_c3_counterexample :
    (Point.mk [(0:ℝ), 0]).dimension ≠ (Point.mk [(0:ℝ), 0, 0]).dimension ∧
    distance ⟨[(0:ℝ), 0]⟩ ⟨[(0:ℝ), 0, 0]⟩ = .ok 0 := by
  refine ⟨by decide, ?_⟩
  rw [distance_eval_ok _ _ (by decide)]
  rw [show sumSq ⟨[(0:ℝ), 0]⟩ ⟨[(0:ℝ), 0, 0]⟩ = 0 from by
    norm_num [sumSq, Point.dimension, List.range_succ]]
  rw [Real.sqrt_zero]

/-- Witness for the amended C3 at the equal-dimension pair (3, 4) and
(0, 0): the distance evaluates to 5. -/
theorem claim_c3_witness :
    (Point.mk [(3:ℝ), 4]).dimension ≤ (Point.mk [(0:ℝ), 0]).dimension ∧
    distance ⟨[(3:ℝ), 4]⟩ ⟨[(0:ℝ), 0]⟩ = .ok 5 := by
  refine ⟨by decide, ?_⟩
  rw [(claim_c3_distance_cases ⟨[(3:ℝ), 4]⟩ ⟨[(0:ℝ), 0]⟩).1 (by decide)]
  rw [show sumSq ⟨[(3:ℝ), 4]⟩ ⟨[(0:ℝ), 0]⟩ = 25 from by
    norm_num [sumSq, Point.dimension, List.range_succ]]
  rw [show (25:ℝ) = 5 ^ 2 from by norm_num, Real.sqrt_sq (by norm_num : (0:ℝ) ≤ 5)]

/-! ### Claim C4: the defaulted second argument of distance -/

/-- C4 amended: the defaulted call shares one fixed 3-dimensional origin
(Python evaluates the default once).  It succeeds exactly for callers of
dimension at most 3, and then coincides with the distance from the zero
vector of the caller's own dimension; for dimension greater than 3 it raises
the getitem IndexError instead of succeeding. -/
theorem claim_c4_distance_default (a : Point) :
    (a.dimension ≤ 3 → distance_default a = distance a (Origin a.dimension)) ∧
    (3 < a.dimension →
      distance_default a = .error (.indexError "Index out of range")) := by
  constructor
  · intro h
    unfold distance_default
    have h3 : (Origin 3 : Point).dimension = 3 := by
      unfold Origin Point.dimension
      rw [List.length_replicate]
    have hdim : (Origin a.dimension : Point).dimension = a.dimension := by
      unfold Origin Point.dimension
      rw [List.length_replicate]
    rw [distance_eval_ok a _ (by rw [h3]; exact h),
      distance_eval_ok a _ (by rw [hdim])]
    have hs : sumSq a (Origin 3) = sumSq a (Origin a.dimension) := by
      unfold sumSq
      refine congrArg List.sum (List.map_congr_left ?_)
      intro i _
      show (a.coordinates.getD i 0
        - (List.replicate 3 (0:ℝ)).getD i 0) ^ 2
        = (a.coordinates.getD i 0
        - (List.replicate a.dimension (0:ℝ)).getD i 0) ^ 2
      rw [getD_replicate_zero, getD_replicate_zero]
    rw [hs]
  · intro h
    unfold distance_default
    refine distance_eval_err a _ ?_
    show (Origin 3 : Point).dimension < a.dimension
    unfold Origin Point.dimension
    rw [List.length_replicate]
    exact h

/-- C4 counterexample: the 4-dimensional zero point: the defaulted distance
call fails with IndexError (reading index 3 of the fixed 3-dimensional
default origin) instead of succeeding. -/
theorem claim_c4_counterexample :
    (Point.mk [(0:ℝ), 0, 0, 0]).dimension = 4 ∧
    distance_default ⟨[(0:ℝ), 0, 0, 0]⟩
      = .error (.indexError "Index out of range") := by
  refine ⟨by decide, ?_⟩
  unfold distance_default
  exact distance_eval_err _ _ (by decide)

/-- Witness for the amended C4 at the 2-dimensional point (1, 2). -/
theorem claim_c4_witness :
    (Point.mk [(1:ℝ), 2]).dimension ≤ 3 ∧
    distance_default ⟨[(1:ℝ), 2]⟩ = distance ⟨[(1:ℝ), 2]⟩ (Origin 2) := by
  refine ⟨by decide, ?_⟩
  exact (claim_c4_distance_default ⟨[(1:ℝ), 2]⟩).1 (by decide)

/-! ### Claim C1: the normalisation post-condition -/

/-- C1: for a well-formed cloud with point_count n >= 2 whose points are not
all identical, normalise succeeds; afterwards the first point is the zero
vector and the maximum over the remaining points of their distance from the
first point equals 1 exactly (the floating-point tolerance of the claim
becomes exact equality in the real-number model). -/
theorem claim_c1_normalise_post (pc : PointCloud)
    (hcount : 2 ≤ pc.point_count) (hlen : pc.points.length = pc.point_count)
    (hwf : ∀ p ∈ pc.points, p.dimension = pc.dimension)
    (hne : ∃ p ∈ pc.points, p ≠ pc.points.headI) :
    ∃ pc', pc.normalise = .ok pc' ∧
      pc'.points.headI = ⟨List.replicate pc.dimension 0⟩ ∧
      ∃ ds, mapME (fun q => distance q pc'.points.headI) (pc'.points.drop 1)
          = .ok ds ∧ pymax ds = .ok 1 := by
  obtain ⟨p0, rest, hpts⟩ : ∃ p0 rest, pc.points = p0 :: rest := by
    cases hp : pc.points with
    | nil => rw [hp] at hlen; simp at hlen; omega
    | cons a t => exact ⟨a, t, rfl⟩
  have hrest : rest ≠ [] := by
    intro h
    rw [hpts, h] at hlen
    simp at hlen
    omega
  have hne' : ∃ p ∈ rest, p ≠ p0 := by
    obtain ⟨p, hp, hne0⟩ := hne
    rw [hpts] at hp
    rw [hpts, List.headI_cons] at hne0
    rcases List.mem_cons.mp hp with rfl | hpr
    · exact absurd rfl hne0
    · exact ⟨p, hpr, hne0⟩
  obtain ⟨pc', hrun, _, _, _, _, hhead, hmax, _⟩ :=
    normalise_full pc p0 rest hpts hwf hrest hne'
  exact ⟨pc', hrun, hhead, hmax⟩

/-- Witness for C1 at the concrete cloud ((0,0,0), (1,0,0), (0,1,0)). -/
theorem claim_c1_witness :
    (2 ≤ (⟨[⟨[(0:ℝ), 0, 0]⟩, ⟨[1, 0, 0]⟩, ⟨[0, 1, 0]⟩], 3, 3⟩ :
        PointCloud).point_count) ∧
    ∃ pc', (⟨[⟨[(0:ℝ), 0, 0]⟩, ⟨[1, 0, 0]⟩, ⟨[0, 1, 0]⟩], 3, 3⟩ :
        PointCloud).normalise = .ok pc' ∧
      pc'.points.headI = ⟨List.replicate 3 0⟩ ∧
      ∃ ds, mapME (fun q => distance q pc'.points.headI) (pc'.points.drop 1)
          = .ok ds ∧ pymax ds = .ok 1 := by
  refine ⟨by norm_num, ?_⟩
  refine claim_c1_normalise_post
    ⟨[⟨[(0:ℝ), 0, 0]⟩, ⟨[1, 0, 0]⟩, ⟨[0, 1, 0]⟩], 3, 3⟩
    (by norm_num) rfl ?_ ?_
  · intro p hp
    simp only [List.mem_cons, List.not_mem_nil, or_false] at hp
    rcases hp with rfl | rfl | rfl <;> rfl
  · refine ⟨⟨[1, 0, 0]⟩, by simp, ?_⟩
    simp only [List.headI_cons]
    intro h
    have := congrArg Point.coordinates h
    simp at this

/-! ### Claim C7: repeated normalisation -/

/-- C7 counterexample: on the concrete cloud ((0,0,0), (1,0,0), (0,1,0))
with point_count 3 >= 2, a second normalise call returns exactly the output
of the first call, so calling normalise twice does not change the result. -/
theorem claim_c7_counterexample :
    (2 ≤ (⟨[⟨[(0:ℝ), 0, 0]⟩, ⟨[1, 0, 0]⟩, ⟨[0, 1, 0]⟩], 3, 3⟩ :
        PointCloud).point_count) ∧
    ∃ pc', (⟨[⟨[(0:ℝ), 0, 0]⟩, ⟨[1, 0, 0]⟩, ⟨[0, 1, 0]⟩], 3, 3⟩ :
        PointCloud).normalise = .ok pc' ∧ pc'.normalise = .ok pc' := by
  refine ⟨by norm_num, ?_⟩
  obtain ⟨pc', hrun, _, _, _, _, _, _, hidem⟩ :=
    normalise_full ⟨[⟨[(0:ℝ), 0, 0]⟩, ⟨[1, 0, 0]⟩, ⟨[0, 1, 0]⟩], 3, 3⟩
      ⟨[(0:ℝ), 0, 0]⟩ [⟨[1, 0, 0]⟩, ⟨[0, 1, 0]⟩] rfl
      (by
        intro p hp
        simp only [List.mem_cons, List.not_mem_nil, or_false] at hp
        rcases hp with rfl | rfl | rfl <;> rfl)
      (by simp)
      (by
        refine ⟨⟨[1, 0, 0]⟩, by simp, ?_⟩
        intro h
        have := congrArg Point.coordinates h
        simp at this)
  exact ⟨pc', hrun, hidem⟩

/-- C7 amended: re-normalising does not change the result.  After one
successful normalise of a well-formed, non-degenerate cloud with at least
two points, the reference point recomputes to the zero vector and the
maximum distance recomputes to 1, so the second normalise call returns its
input unchanged: normalise is idempotent on its successful outputs. -/
theorem claim_c7_idempotent (pc : PointCloud)
    (hcount : 2 ≤ pc.point_count) (hlen : pc.points.length = pc.point_count)
    (hwf : ∀ p ∈ pc.points, p.dimension = pc.dimension)
    (hne : ∃ p ∈ pc.points, p ≠ pc.points.headI) :
    ∃ pc', pc.normalise = .ok pc' ∧ pc'.normalise = .ok pc' := by
  obtain ⟨p0, rest, hpts⟩ : ∃ p0 rest, pc.points = p0 :: rest := by
    cases hp : pc.points with
    | nil => rw [hp] at hlen; simp at hlen; omega
    | cons a t => exact ⟨a, t, rfl⟩
  have hrest : rest ≠ [] := by
    intro h
    rw [hpts, h] at hlen
    simp at hlen
    omega
  have hne' : ∃ p ∈ rest, p ≠ p0 := by
    obtain ⟨p, hp, hne0⟩ := hne
    rw [hpts] at hp
    rw [hpts, List.headI_cons] at hne0
    rcases List.mem_cons.mp hp with rfl | hpr
    · exact absurd rfl hne0
    · exact ⟨p, hpr, hne0⟩
  obtain ⟨pc', hrun, _, _, _, _, _, _, hidem⟩ :=
    normalise_full pc p0 rest hpts hwf hrest hne'
  exact ⟨pc', hrun, hidem⟩

/-- Witness for the amended C7 at the cloud ((0,0,0), (1,0,0), (0,0,2)). -/
theorem claim_c7_witness :
    (2 ≤ (⟨[⟨[(0:ℝ), 0, 0]⟩, ⟨[1, 0, 0]⟩, ⟨[0, 0, 2]⟩], 3, 3⟩ :
        PointCloud).point_count) ∧
    ∃ pc', (⟨[⟨[(0:ℝ), 0, 0]⟩, ⟨[1, 0, 0]⟩, ⟨[0, 0, 2]⟩], 3, 3⟩ :
        PointCloud).normalise = .ok pc' ∧ pc'.normalise = .ok pc' := by
  refine ⟨by norm_num, ?_⟩
  refine claim_c7_idempotent
    ⟨[⟨[(0:ℝ), 0, 0]⟩, ⟨[1, 0, 0]⟩, ⟨[0, 0, 2]⟩], 3, 3⟩
    (by norm_num) rfl ?_ ?_
  · intro p hp
    simp only [List.mem_cons, List.not_mem_nil, or_false] at hp
    rcases hp with rfl | rfl | rfl <;> rfl
  · refine ⟨⟨[1, 0, 0]⟩, by simp, ?_⟩
    simp only [List.headI_cons]
    intro h
    have := congrArg Point.coordinates h
    simp at this

/-! ### Serialization codec lemmas -/

theorem splitOnChar_no_delim (d : Char) :
    ∀ l : List Char, d ∉ l → splitOnChar d l = [l]
  | [], _ => rfl
  | c :: cs, h => by
    have hc : ¬(c = d) := fun hh => h (hh ▸ List.mem_cons_self c cs)
    unfold splitOnChar
    rw [if_neg hc,
      splitOnChar_no_delim d cs (fun hm => h (List.mem_cons_of_mem c hm))]

theorem splitOnChar_append (d : Char) :
    ∀ (A R : List Char), d ∉ A →
      splitOnChar d (A ++ d :: R) = A :: splitOnChar d R
  | [], R, _ => by
    show splitOnChar d (d :: R) = [] :: splitOnChar d R
    rw [splitOnChar, if_pos rfl]
  | c :: A, R, h => by
    have hc : ¬(c = d) := fun hh => h (hh ▸ List.mem_cons_self c A)
    show splitOnChar d (c :: (A ++ d :: R)) = (c :: A) :: splitOnChar d R
    rw [splitOnChar, if_neg hc,
      splitOnChar_append d A R (fun hm => h (List.mem_cons_of_mem c hm))]

theorem split_join (d : Char) :
    ∀ ts : List (List Char), ts ≠ [] → (∀ t ∈ ts, d ∉ t) →
      splitOnChar d (joinWith d ts) = ts
  | [], hne, _ => absurd rfl hne
  | [t], _, h => by
    show splitOnChar d t = [t]
    exact splitOnChar_no_delim d t (h t (List.mem_cons_self t []))
  | t :: t2 :: ts, _, h => by
    show splitOnChar d (t ++ d :: joinWith d (t2 :: ts)) = t :: t2 :: ts
    rw [splitOnChar_append d t _ (h t (List.mem_cons_self _ _)),
      split_join d (t2 :: ts) (by simp)
        (fun x hx => h x (List.mem_cons_of_mem t hx))]

theorem charToDigit_digitChar (d : ℕ) (h : d < 10) :
    charToDigit (Nat.digitChar d) = d := by
  interval_cases d <;> decide

theorem digitChar_codec (d : ℕ) (h : d < 10) :
    isCodecChar (Nat.digitChar d) = true := by
  interval_cases d <;> decide

theorem digitChar_ne_dash_slash (d : ℕ) (h : d < 10) :
    Nat.digitChar d ≠ '-' ∧ Nat.digitChar d ≠ '/' := by
  interval_cases d <;> exact ⟨by decide, by decide⟩

theorem mem_natToChars (n : ℕ) (c : Char) (hc : c ∈ natToChars n) :
    ∃ d, d < 10 ∧ c = Nat.digitChar d := by
  unfold natToChars at hc
  by_cases hn : n = 0
  · rw [if_pos hn] at hc
    simp only [List.mem_singleton] at hc
    exact ⟨0, by norm_num, by rw [hc]; rfl⟩
  · rw [if_neg hn] at hc
    rw [List.mem_reverse, List.mem_map] at hc
    obtain ⟨d, hd, rfl⟩ := hc
    exact ⟨d, Nat.digits_lt_base (by norm_num) hd, rfl⟩

theorem natToChars_ne_nil (n : ℕ) : natToChars n ≠ [] := by
  unfold natToChars
  by_cases hn : n = 0
  · rw [if_pos hn]
    simp
  · rw [if_neg hn]
    intro h
    rw [List.reverse_eq_nil_iff, List.map_eq_nil_iff] at h
    exact Nat.digits_ne_nil_iff_ne_zero.mpr hn h

theorem slash_not_mem_natToChars (n : ℕ) : ('/' : Char) ∉ natToChars n := by
  intro h
  obtain ⟨d, hd, heq⟩ := mem_natToChars n '/' h
  exact (digitChar_ne_dash_slash d hd).2 heq.symm

theorem dash_not_mem_natToChars (n : ℕ) : ('-' : Char) ∉ natToChars n := by
  intro h
  obtain ⟨d, hd, heq⟩ := mem_natToChars n '-' h
  exact (digitChar_ne_dash_slash d hd).1 heq.symm

theorem charsToNat_natToChars (n : ℕ) : charsToNat (natToChars n) = n := by
  unfold charsToNat natToChars
  by_cases hn : n = 0
  · rw [if_pos hn, hn]
    decide
  · rw [if_neg hn, List.map_reverse, List.reverse_reverse, List.map_map]
    have hmap : (Nat.digits 10 n).map (charToDigit ∘ Nat.digitChar)
        = Nat.digits 10 n := by
      refine map_eq_self ?_
      intro d hd
      exact charToDigit_digitChar d (Nat.digits_lt_base (by norm_num) hd)
    rw [hmap, Nat.ofDigits_digits]

theorem mem_ratRepr (q : ℚ) (c : Char) (hc : c ∈ ratRepr q) :
    isCodecChar c = true := by
  unfold ratRepr at hc
  rcases List.mem_append.mp hc with h1 | h2
  · rcases List.mem_append.mp h1 with hsign | hna
    · by_cases hq : q.num < 0
      · rw [if_pos hq] at hsign
        simp only [List.mem_singleton] at hsign
        rw [hsign]
        decide
      · rw [if_neg hq] at hsign
        cases hsign
    · obtain ⟨d, hd, rfl⟩ := mem_natToChars _ c hna
      exact digitChar_codec d hd
  · rcases List.mem_cons.mp h2 with rfl | hden
    · decide
    · obtain ⟨d, hd, rfl⟩ := mem_natToChars _ c hden
      exact digitChar_codec d hd

theorem parseRat_ratRepr (q : ℚ) : parseRat (ratRepr q) = some q := by
  have hsplitmid : splitOnChar '/'
      (natToChars q.num.natAbs ++ '/' :: natToChars q.den)
      = [natToChars q.num.natAbs, natToChars q.den] := by
    rw [splitOnChar_append '/' _ _ (slash_not_mem_natToChars _),
      splitOnChar_no_delim '/' _ (slash_not_mem_natToChars _)]
  by_cases hq : q.num < 0
  · have hr : ratRepr q
        = '-' :: (natToChars q.num.natAbs ++ '/' :: natToChars q.den) := by
      unfold ratRepr
      rw [if_pos hq]
      rfl
    rw [hr]
    show (if ('-' : Char) = '-' then
        match splitOnChar '/' (natToChars q.num.natAbs ++ '/' :: natToChars q.den) with
        | [a, b] => some (-((charsToNat a : ℚ) / (charsToNat b : ℚ)))
        | _ => none
      else
        match splitOnChar '/'
            ('-' :: (natToChars q.num.natAbs ++ '/' :: natToChars q.den)) with
        | [a, b] => some ((charsToNat a : ℚ) / (charsToNat b : ℚ))
        | _ => none) = some q
    rw [if_pos rfl, hsplitmid]
    show some (-((charsToNat (natToChars q.num.natAbs) : ℚ)
      / (charsToNat (natToChars q.den) : ℚ))) = some q
    rw [charsToNat_natToChars, charsToNat_natToChars]
    congr 1
    have hna : ((q.num.natAbs : ℚ)) = -(q.num : ℚ) := by
      rw [Int.cast_natAbs, abs_of_nonpos (le_of_lt hq), Int.cast_neg]
    rw [hna, neg_div, neg_neg, Rat.num_div_den]
  · obtain ⟨c, t, hct⟩ :=
      List.exists_cons_of_ne_nil (natToChars_ne_nil q.num.natAbs)
    have hcne : ¬(c = '-') := by
      intro hcc
      exact dash_not_mem_natToChars q.num.natAbs
        (by rw [hct, hcc]; exact List.mem_cons_self _ _)
    have hr : ratRepr q = c :: (t ++ '/' :: natToChars q.den) := by
      unfold ratRepr
      rw [if_neg hq, hct]
      rfl
    rw [hr]
    show (if c = '-' then
        match splitOnChar '/' (t ++ '/' :: natToChars q.den) with
        | [a, b] => some (-((charsToNat a : ℚ) / (charsToNat b : ℚ)))
        | _ => none
      else
        match splitOnChar '/' (c :: (t ++ '/' :: natToChars q.den)) with
        | [a, b] => some ((charsToNat a : ℚ) / (charsToNat b : ℚ))
        | _ => none) = some q
    rw [if_neg hcne]
    have hsplit2 : splitOnChar '/' (c :: (t ++ '/' :: natToChars q.den))
        = [c :: t, natToChars q.den] := by
      rw [← List.cons_append, ← hct]
      exact hsplitmid
    rw [hsplit2]
    show some ((charsToNat (c :: t) : ℚ) / (charsToNat (natToChars q.den) : ℚ))
      = some q
    rw [← hct, charsToNat_natToChars, charsToNat_natToChars]
    congr 1
    have hna : ((q.num.natAbs : ℚ)) = (q.num : ℚ) := by
      rw [Int.cast_natAbs, abs_of_nonneg (not_lt.mp hq)]
    rw [hna, Rat.num_div_den]

/-! ### Claim C2: the serialization round trip -/

/-- C2: for a cloud built without normalisation from a flat float sequence
(floats given by their exact rational values), splitting csv_repr's output
on the same delimiter and re-parsing with the same dimension, point_count
and normalise=false reconstructs exactly the same cloud; the cloud's
flattened coordinates equal the input sequence.  The delimiter only has to
avoid the characters that can occur inside a serialized number token. -/
theorem claim_c2_roundtrip (raw : List ℚ) (d n : ℕ) (delimiter : Char)
    (hd : 1 ≤ d) (hn : 1 ≤ n) (hlen : raw.length = d * n)
    (hdelim : isCodecChar delimiter = false) :
    ∃ pc, PointCloud.init (raw.map (fun (q : ℚ) => (q : ℝ))) d n false = .ok pc ∧
      from_csv_line (csv_repr raw delimiter) delimiter d n false = .ok pc ∧
      pc.flatCoords = raw.map (fun (q : ℚ) => (q : ℝ)) := by
  have hlen' : (raw.map (fun (q : ℚ) => (q : ℝ))).length = n * d := by
    rw [List.length_map, hlen, Nat.mul_comm]
  refine ⟨_, init_ok _ d n hlen', ?_, init_flatCoords _ d n hlen'⟩
  unfold from_csv_line csv_repr
  have hsplit : splitOnChar delimiter (joinWith delimiter (raw.map ratRepr))
      = raw.map ratRepr := by
    refine split_join delimiter (raw.map ratRepr) ?_ ?_
    · intro hnil
      rw [List.map_eq_nil_iff] at hnil
      rw [hnil] at hlen
      simp at hlen
      omega
    · intro t ht
      obtain ⟨q, _, rfl⟩ := List.mem_map.mp ht
      intro hdel
      rw [mem_ratRepr q delimiter hdel] at hdelim
      cases hdelim
  rw [hsplit, mapME_map]
  have hparse : mapME
      (fun q' : ℚ =>
        match parseRat (ratRepr q') with
        | some q => (Except.ok ((q : ℝ)) : Except PyErr ℝ)
        | none => Except.error (.valueError "could not convert string to float"))
      raw
      = .ok (raw.map (fun (q : ℚ) => (q : ℝ))) := by
    apply mapME_ok
    intro q _
    rw [parseRat_ratRepr q]
  rw [hparse, ok_bind]
  exact init_ok _ d n hlen'

/-- Witness for C2 at raw = (1, 1/2, -2) with d = 3, n = 1 and the default
comma delimiter. -/
theorem claim_c2_witness :
    (1 ≤ 3 ∧ 1 ≤ 1 ∧ ([(1:ℚ), 1/2, -2] : List ℚ).length = 3 * 1 ∧
      isCodecChar ',' = false) ∧
    ∃ pc, PointCloud.init (([(1:ℚ), 1/2, -2] : List ℚ).map (fun (q : ℚ) => (q : ℝ)))
        3 1 false = .ok pc ∧
      from_csv_line (csv_repr [(1:ℚ), 1/2, -2] ',') ',' 3 1 false = .ok pc ∧
      pc.flatCoords = ([(1:ℚ), 1/2, -2] : List ℚ).map (fun (q : ℚ) => (q : ℝ)) :=
  ⟨⟨by norm_num, by norm_num, by norm_num, by decide⟩,
    claim_c2_roundtrip [(1:ℚ), 1/2, -2] 3 1 ','
      (by norm_num) (by norm_num) (by norm_num) (by decide)⟩

end PointTools
